/-
Verification of the text-to-speech plugin (src/src/utils.ts).

The TypeScript source is shallowly embedded: strings are Lean `String` /
`List Char`, the JavaScript regular-expression operations that occur with
*literal* patterns in the source are translated into direct recursive
functions implementing exactly those patterns' semantics, and the one place
where a *user-supplied* string is compiled as a regular expression
(`handleTextFormat`) is modelled by a small JS-regex subset (AST, parser,
backtracking matcher).  The asynchronous `generateVoice` lifecycle is
embedded as a pure function from the configuration, an environment outcome
(what the speech SDK does: succeed with a reason, invoke the failure
callback, or throw during setup) and a store state to the final store
state, the list of observable events, and the promise outcome.
-/
import Mathlib

namespace Text2Audio

/-! ### Basic character/list helpers shared by the regex translations -/

/-- Line terminators that JavaScript's `.` (without the `s` flag) does not
match: `\n`, `\r`, U+2028, U+2029. -/
def isTerm (c : Char) : Bool :=
  c = '\n' || c = '\r' || c = '\u2028' || c = '\u2029'

/-- The part of `l` strictly after the last occurrence of `t`, if any. -/
def afterLast (t : Char) : List Char → Option (List Char)
  | [] => none
  | c :: cs =>
    match afterLast t cs with
    | some r => some r
    | none => if c = t then some cs else none

/-- The part of `l` strictly before the last occurrence of `t`, if any. -/
def beforeLast (t : Char) : List Char → Option (List Char)
  | [] => none
  | c :: cs =>
    match beforeLast t cs with
    | some p => some (c :: p)
    | none => if c = t then some [] else none

theorem afterLast_of_not_mem {t : Char} : ∀ {l : List Char}, t ∉ l → afterLast t l = none
  | [], _ => rfl
  | c :: cs, h => by
    have hc : c ≠ t := fun hc => h (hc ▸ List.mem_cons_self c cs)
    have hcs : t ∉ cs := fun hm => h (List.mem_cons_of_mem _ hm)
    simp [afterLast, afterLast_of_not_mem hcs, hc]

theorem beforeLast_of_not_mem {t : Char} : ∀ {l : List Char}, t ∉ l → beforeLast t l = none
  | [], _ => rfl
  | c :: cs, h => by
    have hc : c ≠ t := fun hc => h (hc ▸ List.mem_cons_self c cs)
    have hcs : t ∉ cs := fun hm => h (List.mem_cons_of_mem _ hm)
    simp [beforeLast, beforeLast_of_not_mem hcs, hc]

theorem afterLast_length {t : Char} :
    ∀ {l r : List Char}, afterLast t l = some r → r.length < l.length := by
  intro l
  induction l with
  | nil => intro r h; simp [afterLast] at h
  | cons c cs ih =>
    intro r h
    simp only [afterLast] at h
    cases hcs : afterLast t cs with
    | some r' =>
      rw [hcs] at h
      cases h
      exact Nat.lt_trans (ih hcs) (Nat.lt_succ_self _)
    | none =>
      rw [hcs] at h
      by_cases hc : c = t
      · simp [hc] at h; cases h; exact Nat.lt_succ_self _
      · simp [hc] at h

/-- Appending the target as the final element: everything after the last
occurrence is empty. -/
theorem afterLast_append_last (t : Char) :
    ∀ (l : List Char), afterLast t (l ++ [t]) = some [] := by
  intro l
  induction l with
  | nil => simp [afterLast]
  | cons c cs ih => simp [afterLast, ih]

theorem beforeLast_append {p f : List Char} (hp : '/' ∉ p) (hf : '/' ∉ f) :
    beforeLast '/' (p ++ '/' :: f) = some p := by
  induction p with
  | nil => simp [beforeLast, beforeLast_of_not_mem hf]
  | cons c cs ih =>
    have hc : '/' ∉ cs := fun hm => hp (List.mem_cons_of_mem _ hm)
    simp only [List.cons_append, beforeLast, List.append_eq, ih hc]

theorem takeWhile_all {p : Char → Bool} :
    ∀ {l : List Char}, (∀ c ∈ l, p c = true) → l.takeWhile p = l
  | [], _ => rfl
  | c :: cs, h => by
    have hc := h c (List.mem_cons_self c cs)
    simp [List.takeWhile, hc,
      takeWhile_all (fun d hd => h d (List.mem_cons_of_mem _ hd))]

theorem dropWhile_all {p : Char → Bool} :
    ∀ {l : List Char}, (∀ c ∈ l, p c = true) → l.dropWhile p = []
  | [], _ => rfl
  | c :: cs, h => by
    have hc := h c (List.mem_cons_self c cs)
    simp [List.dropWhile, hc,
      dropWhile_all (fun d hd => h d (List.mem_cons_of_mem _ hd))]

/-! ### getDefaultFiletime (src/src/utils.ts lines 20-31)

JavaScript renders a number inside a template literal in decimal;
`natDigitsGo` is that decimal rendering for naturals (the fuel argument
makes the recursion structural; fuel `n` always suffices since the
division chain `n, n/10, n/100, …` reaches a value below 10 in at most `n`
steps). -/

def natDigitsGo : Nat → Nat → List Char
  | 0, n => [Nat.digitChar (n % 10)]
  | k + 1, n =>
    if n < 10 then [Nat.digitChar n]
    else natDigitsGo k (n / 10) ++ [Nat.digitChar (n % 10)]

/-- Decimal rendering of a natural number, as JS `${number}` produces. -/
def natStr (n : Nat) : String := String.mk (natDigitsGo n n)

/-- `formatTimeNumber`: `number > 9 ? number : `0${number}``. -/
def formatTimeNumber (n : Nat) : String :=
  if n > 9 then natStr n else "0" ++ natStr n

/-- The wall-clock components read from `new Date()` (host boundary):
`getFullYear`, `getMonth` (0-based), `getDate`, `getHours`, `getMinutes`,
`getSeconds`. -/
structure DateParts where
  fullYear : Nat
  month0 : Nat
  date : Nat
  hours : Nat
  minutes : Nat
  seconds : Nat
deriving DecidableEq

/-- `getDefaultFiletime`: `${year}${month}${day}${hour}${minutes}${seconds}`
with `month = formatTimeNumber(getMonth() + 1)` etc. -/
def getDefaultFiletime (d : DateParts) : String :=
  natStr d.fullYear ++ formatTimeNumber (d.month0 + 1) ++ formatTimeNumber d.date
    ++ formatTimeNumber d.hours ++ formatTimeNumber d.minutes ++ formatTimeNumber d.seconds

/-! ### getVoiceName (src/src/utils.ts lines 265-267)

`voice.replace(/\(.*\)/g, "")`.  A match starts at a `'('` and, `.*` being
greedy and not crossing line terminators, extends to the last `')'` on the
same line after it; replacement is global, so scanning resumes after the
removed span.  `stripParensGo` implements exactly that; the fuel argument
(`≥` the list length, which each step preserves as an invariant) only
makes the recursion structural. -/

def stripParensGo : Nat → List Char → List Char
  | _, [] => []
  | 0, s => s
  | k + 1, c :: cs =>
    if c = '(' then
      match afterLast ')' (cs.takeWhile (fun d => !isTerm d)) with
      | some tail => stripParensGo k (tail ++ cs.dropWhile (fun d => !isTerm d))
      | none => c :: stripParensGo k cs
    else c :: stripParensGo k cs

def stripParens (s : List Char) : List Char := stripParensGo s.length s

/-- `getVoiceName = (voice) => voice.replace(/\(.*\)/g, "")`. -/
def getVoiceName (voice : String) : String := String.mk (stripParens voice.data)

/-! ### getAudioFormatType (src/src/utils.ts lines 290-291)

`audioFormat.replace(/(.*-)/g, "").toLowerCase() === "mp3" ? "mp3" : "wav"`.
`(.*-)` greedily matches, within each line, everything up to the last `'-'`
of that line, and the global replacement removes it; a line without `'-'`
is untouched.  `Char.toLower` is the ASCII lowering, which agrees with JS
`toLowerCase` on every character relevant to a comparison with "mp3". -/

def stripDashesGo : Nat → List Char → List Char
  | _, [] => []
  | 0, s => s
  | k + 1, s@(_ :: _) =>
    let line := s.takeWhile (fun c => !isTerm c)
    let rest := s.dropWhile (fun c => !isTerm c)
    let lineOut := (afterLast '-' line).getD line
    match rest with
    | [] => lineOut
    | t :: tail => lineOut ++ t :: stripDashesGo k tail

def stripDashes (s : List Char) : List Char := stripDashesGo s.length s

def getAudioFormatType (audioFormat : String) : String :=
  if (stripDashes audioFormat.data).map Char.toLower = "mp3".data then "mp3" else "wav"

/-! ### handleTextFormat (src/src/utils.ts lines 281-288)

```
text && rule
  ? text.replace(new RegExp(rule.replace(/^\/(.*)\/.*/g, "$1"), "gi"), " ")
  : text
```

Two regular-expression layers are involved.

The inner, literal one (`rule.replace(/^\/(.*)\/.*/g, "$1")`) is anchored:
without the `m` flag `^` only matches at offset 0, so the global flag is
moot after the first match.  A match needs `'/'` at offset 0, then the
greedy `(.*)` runs to the last `'/'` of the first line, and the trailing
`.*` swallows the rest of that line; the replacement keeps group 1 and
whatever followed the first line.  `extractRule` implements exactly that.

The outer one compiles a *user-supplied* string with flags `"gi"`.  It is
modelled by the `Re` syntax below with a JS-compatible backtracking
matcher (`matchLens` lists the lengths of the possible matches at a
position in JS preference order — greedy, leftmost) and by `parsePattern`,
a parser for a subset of the JS regex grammar (literals, escapes, `.`,
character classes with ranges and negation, grouping, `|`, greedy
`* + ?`).  `parsePattern … = none` covers both the constructs outside the
subset and the patterns on which the `RegExp` constructor throws. -/

def extractRule (rule : List Char) : List Char :=
  match rule with
  | [] => []
  | c :: rest =>
    if c = '/' then
      match beforeLast '/' (rest.takeWhile (fun d => !isTerm d)) with
      | some g1 => g1 ++ rest.dropWhile (fun d => !isTerm d)
      | none => c :: rest
    else c :: rest

/-- Whether `rule` has the `/pattern/flags` shape the anchored extraction
matches: a leading slash with a closing slash later on the same line. -/
def ruleShape (rule : List Char) : Bool :=
  match rule with
  | '/' :: rest => decide ('/' ∈ rest.takeWhile (fun d => !isTerm d))
  | _ => false

/-- One element of a character class: a single character or a range. -/
inductive ClsItem where
  | single : Char → ClsItem
  | range : Char → Char → ClsItem
deriving DecidableEq, Repr

/-- Syntax of the modelled JS regular-expression subset. -/
inductive Re where
  | emptyRe : Re
  | ch : Char → Re
  | dot : Re
  | cls : Bool → List ClsItem → Re
  | seqRe : Re → Re → Re
  | altRe : Re → Re → Re
  | starRe : Re → Re
deriving DecidableEq, Repr

/-- Character comparison under the optional `i` flag (ASCII folding, as JS
canonicalisation behaves on the ASCII range). -/
def charMatch (ci : Bool) (pat c : Char) : Bool :=
  if ci then pat.toLower = c.toLower else pat = c

def clsItemMatch (ci : Bool) (c : Char) : ClsItem → Bool
  | ClsItem.single d => charMatch ci d c
  | ClsItem.range lo hi =>
    (lo ≤ c && c ≤ hi)
      || (ci && ((lo ≤ c.toLower && c.toLower ≤ hi) || (lo ≤ c.toUpper && c.toUpper ≤ hi)))

/-- Greedy iteration of a star body.  `f s` lists the candidate lengths of
one body match at `s`; iterations that match the empty string terminate
the loop (JS semantics), so only positive lengths recurse.  The fuel is
only to make the recursion structural: each iteration consumes at least
one character, so fuel `s.length` can never be exhausted before `s` is. -/
def starIter (f : List Char → List Nat) : Nat → List Char → List Nat
  | _, [] => [0]
  | 0, _ => [0]
  | k + 1, s =>
    (((f s).filter (fun n => n != 0)).flatMap
      (fun n1 => (starIter f k (s.drop n1)).map (fun n2 => n1 + n2))) ++ [0]

/-- All lengths of matches of `re` at the start of `s`, in JS backtracking
preference order; the head, when present, is the match JS commits to. -/
def matchLens (ci : Bool) : Re → List Char → List Nat
  | Re.emptyRe, _ => [0]
  | Re.ch _, [] => []
  | Re.ch c, d :: _ => if charMatch ci c d then [1] else []
  | Re.dot, [] => []
  | Re.dot, d :: _ => if isTerm d then [] else [1]
  | Re.cls _ _, [] => []
  | Re.cls neg items, d :: _ =>
    let m := items.any (clsItemMatch ci d)
    if (if neg then !m else m) then [1] else []
  | Re.seqRe a b, s =>
    (matchLens ci a s).flatMap
      (fun n1 => (matchLens ci b (s.drop n1)).map (fun n2 => n1 + n2))
  | Re.altRe a b, s => matchLens ci a s ++ matchLens ci b s
  | Re.starRe a, s => starIter (matchLens ci a) s.length s

/-- `String.prototype.replace` with a global regex and a fixed replacement:
scan left to right; at each position take the preferred match; an empty
match emits the replacement and moves on by one character (JS advances
`lastIndex` past empty matches); a positive match emits the replacement
and skips the matched span; no match keeps the character.  At the end of
the input one final empty match is still possible.  Fuel `s.length` is
enough: every step consumes at least one character. -/
def replaceGo (ci : Bool) (re : Re) (repl : List Char) : Nat → List Char → List Char
  | _, [] =>
    match (matchLens ci re []).head? with
    | some _ => repl
    | none => []
  | 0, s => s
  | k + 1, c :: cs =>
    match (matchLens ci re (c :: cs)).head? with
    | some 0 => repl ++ c :: replaceGo ci re repl k cs
    | some (n + 1) => repl ++ replaceGo ci re repl k ((c :: cs).drop (n + 1))
    | none => c :: replaceGo ci re repl k cs

def replaceAllRe (ci : Bool) (re : Re) (repl : List Char) (s : List Char) : List Char :=
  replaceGo ci re repl s.length s

/-- Single-character escapes usable both inside and outside classes. -/
def singleEsc (c : Char) : Option Char :=
  if c = 't' then some '\t'
  else if c = 'n' then some '\n'
  else if c = 'r' then some '\r'
  else if c = 'f' then some '\x0c'
  else if c = 'v' then some '\x0b'
  else if c = '\\' || c = '/' || c = '.' || c = '*' || c = '+' || c = '?' || c = '('
      || c = ')' || c = '[' || c = ']' || c = '|' || c = '^' || c = '$' || c = '-'
      || c = '\x7b' || c = '\x7d' then some c
  else none

def digitItems : List ClsItem := [ClsItem.range '0' '9']

def wordItems : List ClsItem :=
  [ClsItem.range 'a' 'z', ClsItem.range 'A' 'Z', ClsItem.range '0' '9', ClsItem.single '_']

def spaceItems : List ClsItem :=
  [ClsItem.single ' ', ClsItem.single '\t', ClsItem.single '\n', ClsItem.single '\r',
   ClsItem.single '\x0b', ClsItem.single '\x0c', ClsItem.single ' ']

/-- Class-item group escapes (`\d`, `\w`, `\s`) inside a class. -/
def groupEsc (c : Char) : Option (List ClsItem) :=
  if c = 'd' then some digitItems
  else if c = 'w' then some wordItems
  else if c = 's' then some spaceItems
  else none

/-- Escapes as standalone atoms. -/
def escAtom (c : Char) : Option Re :=
  match singleEsc c with
  | some d => some (Re.ch d)
  | none =>
    if c = 'd' then some (Re.cls false digitItems)
    else if c = 'D' then some (Re.cls true digitItems)
    else if c = 'w' then some (Re.cls false wordItems)
    else if c = 'W' then some (Re.cls true wordItems)
    else if c = 's' then some (Re.cls false spaceItems)
    else if c = 'S' then some (Re.cls true spaceItems)
    else none

/-- Reads one class endpoint (a literal character or a single-character
escape); fails at `]`, at a lone backslash, or at a group escape. -/
def clsEndpoint : List Char → Option (Char × List Char)
  | [] => none
  | '\\' :: e :: rest => (singleEsc e).map (fun d => (d, rest))
  | '\\' :: [] => none
  | ']' :: _ => none
  | c :: rest => some (c, rest)

/-- Applies at most one greedy quantifier to an atom; a second quantifier
character right after (lazy `*?`, doubled quantifiers) is outside the
subset. -/
def quantChk (rest : List Char) (r : Re) : Option (Re × List Char) :=
  match rest with
  | '*' :: _ => none
  | '+' :: _ => none
  | '?' :: _ => none
  | _ => some (r, rest)

def applyQuant (a : Re) (s : List Char) : Option (Re × List Char) :=
  match s with
  | '*' :: rest => quantChk rest (Re.starRe a)
  | '+' :: rest => quantChk rest (Re.seqRe a (Re.starRe a))
  | '?' :: rest => quantChk rest (Re.altRe a Re.emptyRe)
  | _ => some (a, s)

/-- Parses the items of a character class up to the closing `]`.  After a
low endpoint, `lo-hi` forms a range when the `-` is not the last character
before `]`; a trailing `-` is the literal item.  The recursion is
structural on the fuel so that the definition reduces in the kernel. -/
def parseClsItems : Nat → List Char → Option (List ClsItem × List Char)
  | 0, _ => none
  | _ + 1, ']' :: rest => some ([], rest)
  | k + 1, '\\' :: e :: rest =>
    match groupEsc e with
    | some items =>
      match parseClsItems k rest with
      | some (more, rest2) => some (items ++ more, rest2)
      | none => none
    | none =>
      match clsEndpoint ('\\' :: e :: rest) with
      | some (lo, '-' :: ']' :: rest1) =>
        some ([ClsItem.single lo, ClsItem.single '-'], rest1)
      | some (lo, '-' :: c2 :: rest1) =>
        match clsEndpoint (c2 :: rest1) with
        | some (hi, rest2) =>
          match parseClsItems k rest2 with
          | some (more, rest3) => some (ClsItem.range lo hi :: more, rest3)
          | none => none
        | none => none
      | some (lo, rest1) =>
        match parseClsItems k rest1 with
        | some (more, rest2) => some (ClsItem.single lo :: more, rest2)
        | none => none
      | none => none
  | k + 1, s =>
    match clsEndpoint s with
    | some (lo, '-' :: ']' :: rest1) =>
      some ([ClsItem.single lo, ClsItem.single '-'], rest1)
    | some (lo, '-' :: c2 :: rest1) =>
      match clsEndpoint (c2 :: rest1) with
      | some (hi, rest2) =>
        match parseClsItems k rest2 with
        | some (more, rest3) => some (ClsItem.range lo hi :: more, rest3)
        | none => none
      | none => none
    | some (lo, rest1) =>
      match parseClsItems k rest1 with
      | some (more, rest2) => some (ClsItem.single lo :: more, rest2)
      | none => none
    | none => none

/-- Grammar level being parsed: alternation, concatenation, or one atom. -/
inductive PKind where
  | alt : PKind
  | sq : PKind
  | atom : PKind
deriving DecidableEq

/-- Recursive-descent pattern parser over the three grammar levels,
structural on the fuel.  At the atom level, special characters that head
constructs outside the subset (`^ $ { }`, lookaround `(?…`, bare
quantifiers) are rejected, modelling either a `RegExp` failure or an
unmodelled construct. -/
def parseRe : Nat → PKind → List Char → Option (Re × List Char)
  | 0, _, _ => none
  | k + 1, PKind.alt, s =>
    match parseRe k PKind.sq s with
    | some (a, '|' :: rest) =>
      match parseRe k PKind.alt rest with
      | some (b, s2) => some (Re.altRe a b, s2)
      | none => none
    | some (a, s1) => some (a, s1)
    | none => none
  | k + 1, PKind.sq, s =>
    match s with
    | [] => some (Re.emptyRe, [])
    | ')' :: _ => some (Re.emptyRe, s)
    | '|' :: _ => some (Re.emptyRe, s)
    | _ =>
      match parseRe k PKind.atom s with
      | some (a, s1) =>
        match applyQuant a s1 with
        | some (a2, s2) =>
          match parseRe k PKind.sq s2 with
          | some (b, s3) => some (Re.seqRe a2 b, s3)
          | none => none
        | none => none
      | none => none
  | k + 1, PKind.atom, s =>
    match s with
    | '(' :: '?' :: _ => none
    | '(' :: rest =>
      match parseRe k PKind.alt rest with
      | some (a, ')' :: rest2) => some (a, rest2)
      | _ => none
    | '[' :: '^' :: rest =>
      match parseClsItems k rest with
      | some (items, rest2) => some (Re.cls true items, rest2)
      | none => none
    | '[' :: rest =>
      match parseClsItems k rest with
      | some (items, rest2) => some (Re.cls false items, rest2)
      | none => none
    | '.' :: rest => some (Re.dot, rest)
    | '\\' :: e :: rest =>
      match escAtom e with
      | some a => some (a, rest)
      | none => none
    | '\\' :: [] => none
    | [] => none
    | c :: rest =>
      if c = '^' || c = '$' || c = '*' || c = '+' || c = '?' || c = ')' || c = ']'
          || c = '\x7b' || c = '\x7d' || c = '|' || c = '[' || c = '(' then none
      else some (Re.ch c, rest)

/-- Compiles a whole pattern; `none` models both `RegExp` constructor
failures and constructs outside the modelled subset. -/
def parsePattern (p : List Char) : Option Re :=
  match parseRe (4 * p.length + 8) PKind.alt p with
  | some (re, []) => some re
  | _ => none

/-- `handleTextFormat` (the `&&` guard is string truthiness: empty strings
are falsy, so either empty operand returns `text` unchanged). -/
def handleTextFormat (text rule : String) : Option String :=
  if text.data = [] ∨ rule.data = [] then some text
  else
    match parsePattern (extractRule rule.data) with
    | some re => some (String.mk (replaceAllRe true re [' '] text.data))
    | none => none

/-! ### getSelectedText (src/src/utils.ts lines 293-317)

The Obsidian editor is an external collaborator; its read-only queries
(`getSelection`, `getCursor`, `lastLine`, `getLine`, `wordAt`, `getRange`)
are modelled as fields of `EditorModel`, so the extractor is verified for
every possible editor behaviour. -/

/-- An editor position, `{ line, ch }`. -/
structure Pos where
  line : Nat
  ch : Nat
deriving DecidableEq

/-- A word range as returned by `editor.wordAt`, `{ from, to }` (the
source's `from`/`to` field names are Lean keywords). -/
structure WordRange where
  fromPos : Pos
  toPos : Pos
deriving DecidableEq

/-- Read-only queries of the host editor.  `wordAt` returns `none` for the
JS `null`; a returned `WordRange` is an object, hence always truthy. -/
structure EditorModel where
  selection : String
  cursor : Pos
  lastLine : Nat
  getLine : Nat → String
  wordAt : Pos → Option WordRange
  getRange : Pos → Pos → String

/-- The read-scope setting (`readBeforeOrAfter`). -/
inductive ReadScope where
  | off : ReadScope
  | before : ReadScope
  | after : ReadScope
deriving DecidableEq

/-- `String.prototype.trim`: drop whitespace from both ends.  Implemented
structurally (Lean's `String.trim` is not kernel-reducible); the
whitespace set is the common `space/tab/CR/LF` core, which is all any
claim depends on. -/
def jsTrim (s : String) : String :=
  String.mk (((s.data.dropWhile Char.isWhitespace).reverse.dropWhile
    Char.isWhitespace).reverse)

/-- `getSelectedText` translated clause by clause; when no editor is
supplied the result is `""`. -/
def getSelectedText (readBeforeOrAfter : ReadScope) (editor : Option EditorModel) : String :=
  match editor with
  | some ed =>
    let content := ed.selection
    if readBeforeOrAfter ≠ ReadScope.off then
      let fromTo : Pos × Pos :=
        if readBeforeOrAfter = ReadScope.after then
          let lastLineNumber := ed.lastLine
          let defaultToValue : Pos := ⟨lastLineNumber, (ed.getLine lastLineNumber).length⟩
          let lastWordPosition := ed.wordAt defaultToValue
          (ed.cursor, ((lastWordPosition.map WordRange.toPos).getD defaultToValue))
        else (⟨0, 0⟩, ed.cursor)
      let content2 := if content = "" then ed.getRange fromTo.1 fromTo.2 else content
      jsTrim content2
    else jsTrim content
  | none => ""

/-! ### generateVoice (src/src/utils.ts lines 33-147)

The promise executor is embedded as a pure function.  Everything the SDK
and the host may do is an `SdkEnv` value: the synthesis completion
callback fires with a reason, the failure callback fires with an error
string, or setup throws (at one of the three observable stages: before the
`play`-branch `setAudioConfig`, after it, or after the synthesizer is
registered).  The run returns the final store state, the ordered list of
observable events, and the promise outcome. -/

/-- Notice severity tags.  Modelled from the spec: `type.ts`
(`MessageType`) is not under `src/`; §6 gives the severity tags
`success`/`error`. -/
inductive MessageType where
  | success : MessageType
  | error : MessageType
deriving DecidableEq

/-- Output mode (`type: "save" | "play"`; `type` is a Lean keyword, the
field is named `typ` here). -/
inductive SynthType where
  | save : SynthType
  | play : SynthType
deriving DecidableEq

/-- UI language (`lang: "zh" | "en"`). -/
inductive Lang where
  | zh : Lang
  | en : Lang
deriving DecidableEq

/-- The tip messages `generateVoice` reads.  Modelled from the spec:
`constants.ts` (`LANGS`) is not under `src/`; per §2/§7 they are opaque
localized strings (`tipMessage.success.synthesis`,
`tipMessage.success.save`, `tipMessage.error.synthesis`), so the run is
parametrised over the `LANGS` table. -/
structure LangTips where
  successSynthesis : String
  successSave : String
  errorSynthesis : String
deriving DecidableEq

/-- The destructured `config` argument.  Fields of the
`Partial<Record<ConfigKeys, string>>` part are `Option String` (absent =
JS `undefined`); `speed` is carried as its JS decimal rendering, which no
claim depends on; the optional `callback` is modelled by its presence. -/
structure Config where
  filename : Option String
  text : Option String
  key : Option String
  region : Option String
  filePath : Option String
  voice : Option String
  typ : SynthType
  lang : Lang
  hasCallback : Bool
  audioFormat : Option String
  audioFormatType : Option String
  speed : String
  regionCode : Option String
deriving DecidableEq

/-- JS template-literal rendering of a possibly-`undefined` string. -/
def jsStr : Option String → String
  | some s => s
  | none => "undefined"

/-- `const audioFile = `${filePath}/${filename}.${audioFormatType}``. -/
def audioFile (cfg : Config) : String :=
  jsStr cfg.filePath ++ "/" ++ jsStr cfg.filename ++ "." ++ jsStr cfg.audioFormatType

/-- JS truthiness of the `text` field: `text ? … : …`. -/
def textStr (cfg : Config) : String := (cfg.text).getD ""

/-- The SSML template literal (lines 93-99), whitespace as in the source. -/
def buildSsml (cfg : Config) : String :=
  "<speak version=\"1.0\" xmlns=\"http://www.w3.org/2001/10/synthesis\" xml:lang=\""
    ++ jsStr cfg.regionCode ++ "\">\n\t\t\t\t<voice name=\"" ++ jsStr cfg.voice
    ++ "\">\n\t\t\t\t\t<prosody rate=\"" ++ cfg.speed ++ "\">\n\t\t\t\t\t\t"
    ++ textStr cfg ++ "\n\t\t\t\t\t</prosody>\n\t\t\t\t</voice>\n\t\t\t</speak>"

/-- `const ssmlContent = text ? `…` : ""`. -/
def ssmlContent (cfg : Config) : String :=
  if textStr cfg = "" then "" else buildSsml cfg

/-- Reason codes of the SDK completion callback; everything other than
`SynthesizingAudioCompleted` is `otherReason` with an opaque code. -/
inductive ResultReason where
  | synthesizingAudioCompleted : ResultReason
  | otherReason : Nat → ResultReason
deriving DecidableEq

/-- What the external SDK does on this invocation. -/
inductive SdkEnv where
  | setupThrow : Nat → String → SdkEnv
  | completed : ResultReason → SdkEnv
  | errored : String → SdkEnv
deriving DecidableEq

/-- Shared process-wide store (`./store`).  Modelled from the spec:
`store.ts` is not under `src/`; §3 gives it the "is playing" flag, the
cached `sdk.AudioConfig`, and the at-most-one live synthesizer handle
(represented by an id so distinct registrations are distinguishable). -/
structure StoreState where
  playing : Bool
  audioConfigSet : Bool
  synthesizer : Option Nat
  nextId : Nat
deriving DecidableEq

/-- Modelled from the spec: `actions.pause` of the missing `store.ts`.
§4.2 step 1: on invocation the lifecycle "first cancel[s] any existing
playback/synthesis (stop audio, release the previous synthesizer handle)";
§5: cancellation is cooperative resource release. -/
def pauseA (s : StoreState) : StoreState :=
  { s with playing := false, synthesizer := none }

/-- Modelled from the spec: `actions.clearAudioConfig` clears the cached
`sdk.AudioConfig` (source comment on lines 65-67). -/
def clearAudioConfigA (s : StoreState) : StoreState :=
  { s with audioConfigSet := false }

/-- Modelled from the spec: `actions.setAudioConfig` caches the audio
config for later playback control. -/
def setAudioConfigA (s : StoreState) : StoreState :=
  { s with audioConfigSet := true }

/-- Modelled from the spec: `actions.setSpeechSynthesizer` registers the
freshly constructed synthesizer as the single live handle. -/
def setSpeechSynthesizerA (s : StoreState) : StoreState :=
  { s with synthesizer := some s.nextId, nextId := s.nextId + 1 }

/-- Modelled from the spec: `actions.clearsynthesizer` releases the stored
synthesizer handle (§4.2 step 6). -/
def clearsynthesizerA (s : StoreState) : StoreState :=
  { s with synthesizer := none }

/-- Observable events of one `generateVoice` invocation, in order. -/
inductive Event where
  | pause : Event
  | clearAudioConfig : Event
  | setAudioConfig : Event
  | setSpeechSynthesizer : Event
  | speakSsml : String → Event
  | notice : MessageType → String → Event
  | clearSynthesizer : Event
  | callbackInvoked : Event
deriving DecidableEq

/-- The outcome of the returned promise: settled by `resolve`/`reject`, or
never settled. -/
inductive PromiseResult where
  | resolved : Bool → PromiseResult
  | rejected : Bool → PromiseResult
  | pending : PromiseResult
deriving DecidableEq

/-- `synthesizerClear` (lines 59-62): `actions.clearsynthesizer()` then
`callback && callback()`. -/
def cbEvents (cfg : Config) : List Event :=
  if cfg.hasCallback then [Event.callbackInvoked] else []

/-- Store-visible events of the `try` block before `speakSsmlAsync`:
`actions.setAudioConfig` only on the `play` branch (line 79), then
`actions.setSpeechSynthesizer` (line 90). -/
def setupStoreEvents (cfg : Config) : List Event :=
  (if cfg.typ = SynthType.play then [Event.setAudioConfig] else []) ++
    [Event.setSpeechSynthesizer]

def setupStoreState (cfg : Config) (s : StoreState) : StoreState :=
  setSpeechSynthesizerA (if cfg.typ = SynthType.play then setAudioConfigA s else s)

/-- Store-visible events completed before a setup exception at `stage`. -/
def throwEvents (cfg : Config) (stage : Nat) : List Event :=
  if stage = 0 then []
  else if stage = 1 then (if cfg.typ = SynthType.play then [Event.setAudioConfig] else [])
  else setupStoreEvents cfg

def throwState (cfg : Config) (stage : Nat) (s : StoreState) : StoreState :=
  if stage = 0 then s
  else if stage = 1 then (if cfg.typ = SynthType.play then setAudioConfigA s else s)
  else setupStoreState cfg s

/-- The success-notice message (lines 110-120): `` `${success.synthesis}.
${type === "save" ? `${success.save} ` + audioFile : ""}` ``. -/
def successMsg (L : Lang → LangTips) (cfg : Config) : String :=
  (L cfg.lang).successSynthesis ++ ". " ++
    (if cfg.typ = SynthType.save then (L cfg.lang).successSave ++ " " ++ audioFile cfg else "")

/-- One run of the `generateVoice` promise executor. -/
def generateVoiceRun (L : Lang → LangTips) (cfg : Config) (env : SdkEnv) (s0 : StoreState) :
    StoreState × List Event × PromiseResult :=
  let s2 := clearAudioConfigA (pauseA s0)
  let pro : List Event := [Event.pause, Event.clearAudioConfig]
  match env with
  | SdkEnv.setupThrow stage e =>
    (clearsynthesizerA (throwState cfg stage s2),
     pro ++ throwEvents cfg stage
       ++ [Event.notice MessageType.error e, Event.clearSynthesizer] ++ cbEvents cfg,
     PromiseResult.rejected false)
  | SdkEnv.completed reason =>
    let s3 := setupStoreState cfg s2
    if ssmlContent cfg = "" then
      (s3, pro ++ setupStoreEvents cfg, PromiseResult.pending)
    else if reason = ResultReason.synthesizingAudioCompleted then
      (clearsynthesizerA s3,
       pro ++ setupStoreEvents cfg
         ++ [Event.speakSsml (ssmlContent cfg),
             Event.notice MessageType.success (successMsg L cfg), Event.clearSynthesizer]
         ++ cbEvents cfg,
       PromiseResult.resolved true)
    else
      (clearsynthesizerA s3,
       pro ++ setupStoreEvents cfg
         ++ [Event.speakSsml (ssmlContent cfg),
             Event.notice MessageType.error (L cfg.lang).errorSynthesis,
             Event.clearSynthesizer]
         ++ cbEvents cfg,
       PromiseResult.rejected false)
  | SdkEnv.errored err =>
    let s3 := setupStoreState cfg s2
    if ssmlContent cfg = "" then
      (s3, pro ++ setupStoreEvents cfg, PromiseResult.pending)
    else
      (clearsynthesizerA s3,
       pro ++ setupStoreEvents cfg
         ++ [Event.speakSsml (ssmlContent cfg),
             Event.notice MessageType.error err, Event.clearSynthesizer]
         ++ cbEvents cfg,
       PromiseResult.rejected false)

/-! ## String-level helper lemmas -/

theorem str_data_append (a b : String) : (a ++ b).data = a.data ++ b.data := by
  cases a; cases b; rfl

theorem str_data_eq_nil {s : String} : s.data = [] ↔ s = "" := by
  constructor
  · intro h
    cases s
    exact congrArg String.mk h
  · intro h
    subst h
    rfl

theorem str_append_ne_empty_right (a b : String) (h : b ≠ "") : a ++ b ≠ "" := by
  intro hab
  apply h
  have := (str_data_eq_nil).mpr hab
  rw [str_data_append] at this
  exact str_data_eq_nil.mp (List.append_eq_nil.mp this).2

theorem str_length_data (s : String) : s.length = s.data.length := rfl

theorem str_length_append (a b : String) : (a ++ b).length = a.length + b.length := by
  rw [str_length_data, str_length_data, str_length_data, str_data_append, List.length_append]

/-! ## C9 — getVoiceName strips a parenthesized suffix -/

theorem stripParensGo_paren_suffix :
    ∀ (pre : List Char) (k : Nat) (suf : List Char),
      (pre ++ '(' :: (suf ++ [')'])).length ≤ k →
      '(' ∉ pre → (∀ c ∈ suf, isTerm c = false) →
      stripParensGo k (pre ++ '(' :: (suf ++ [')'])) = pre := by
  intro pre
  induction pre with
  | nil =>
    intro k suf hk _ hs
    have hall : ∀ c ∈ suf ++ [')'], (fun d => !isTerm d) c = true := by
      intro c hc
      rcases List.mem_append.mp hc with h | h
      · simp [hs c h]
      · simp only [List.mem_singleton] at h
        subst h
        decide
    cases k with
    | zero => simp at hk
    | succ k' =>
      simp only [List.nil_append, stripParensGo, if_pos rfl]
      rw [takeWhile_all hall, afterLast_append_last, dropWhile_all hall]
      simp [stripParensGo]
  | cons c pre' ih =>
    intro k suf hk hp hs
    have hc : c ≠ '(' := fun h => hp (h ▸ List.mem_cons_self _ _)
    have hp' : '(' ∉ pre' := fun h => hp (List.mem_cons_of_mem _ h)
    cases k with
    | zero => simp at hk
    | succ k' =>
      have hk' : (pre' ++ '(' :: (suf ++ [')'])).length ≤ k' := by
        simp only [List.cons_append, List.length_cons] at hk
        omega
      simp only [List.cons_append, stripParensGo, if_neg hc, List.append_eq]
      rw [ih k' suf hk' hp' hs]

/-- C9: `getVoiceName` strips a parenthesized suffix: for every prefix with
no `'('` and every suffix free of line terminators,
`pre ++ "(" ++ suf ++ ")"` is mapped to `pre` (so in particular the
trailing space of a display name like `"en-US-JennyNeural (Female)"` is
preserved — see the witness). -/
theorem c9_getVoiceName_strips_paren_suffix (pre suf : String)
    (hp : '(' ∉ pre.data) (hs : ∀ c ∈ suf.data, isTerm c = false) :
    getVoiceName (pre ++ "(" ++ suf ++ ")") = pre := by
  have hdata : (pre ++ "(" ++ suf ++ ")").data
      = pre.data ++ '(' :: (suf.data ++ [')']) := by
    rw [str_data_append, str_data_append, str_data_append]
    simp
  have : stripParens ((pre ++ "(" ++ suf ++ ")").data) = pre.data := by
    rw [hdata]
    exact stripParensGo_paren_suffix pre.data _ suf.data (by rw [← hdata]) hp hs
  unfold getVoiceName
  rw [this]

theorem c9_witness : getVoiceName "en-US-JennyNeural (Female)" = "en-US-JennyNeural " := by
  have h := c9_getVoiceName_strips_paren_suffix "en-US-JennyNeural " "Female"
    (by decide) (by decide)
  rw [show ("en-US-JennyNeural " ++ "(" ++ "Female" ++ ")" : String)
      = "en-US-JennyNeural (Female)" from by decide] at h
  exact h

/-! ## C6 — getAudioFormatType suffix classification -/

/-- C6 restated from the spec's words, for comparison with the source
function: container `"mp3"` exactly when the string ends in
case-insensitive `"-mp3"`, else `"wav"`. -/
def specAudioFormatType (s : String) : String :=
  if "-mp3".data <:+ s.data.map Char.toLower then "mp3" else "wav"

/-- C6 counterexample: on the input `"mp3"` (no dash, so it does not end in
`"-mp3"`) the source function returns `"mp3"` while the claim requires
`"wav"`. -/
theorem c6_counterexample :
    getAudioFormatType "mp3" = "mp3" ∧ specAudioFormatType "mp3" = "wav" ∧
      getAudioFormatType "mp3" ≠ specAudioFormatType "mp3" := by decide

theorem stripDashes_single_line {l : List Char} (h : ∀ c ∈ l, isTerm c = false) :
    stripDashes l = (afterLast '-' l).getD l := by
  cases l with
  | nil => rfl
  | cons c cs =>
    have hall : ∀ d ∈ c :: cs, (fun x => !isTerm x) d = true := by
      intro d hd
      simp [h d hd]
    simp only [stripDashes, List.length_cons, stripDashesGo]
    rw [takeWhile_all hall, dropWhile_all hall]

/-- C6 amended: for an audio-format string without line terminators the
derived container type is `"mp3"` exactly when the segment after the last
`'-'` (the whole string when there is no dash) lowercases to `"mp3"`, and
`"wav"` otherwise; in particular every single-line string ending in
case-insensitive `"-mp3"` still maps to `"mp3"`, but so does the bare
string `"mp3"`. -/
theorem c6_amended_getAudioFormatType (s : String) (h : ∀ c ∈ s.data, isTerm c = false) :
    getAudioFormatType s =
      if ((afterLast '-' s.data).getD s.data).map Char.toLower = "mp3".data
      then "mp3" else "wav" := by
  unfold getAudioFormatType
  rw [stripDashes_single_line h]

theorem c6_witness : getAudioFormatType "audio-16khz-32kbitrate-mono-mp3" = "mp3" := by
  have h := c6_amended_getAudioFormatType "audio-16khz-32kbitrate-mono-mp3" (by decide)
  exact h.trans (by decide)

/-! ## C8 — getDefaultFiletime is a 14-digit timestamp -/

theorem digitChar_isDigit {k : Nat} (h : k < 10) : (Nat.digitChar k).isDigit = true := by
  interval_cases k <;> decide

theorem natDigitsGo_all_digits :
    ∀ (f n : Nat), ∀ c ∈ natDigitsGo f n, c.isDigit = true := by
  intro f
  induction f with
  | zero =>
    intro n c hc
    simp only [natDigitsGo, List.mem_singleton] at hc
    subst hc
    exact digitChar_isDigit (Nat.mod_lt _ (by omega))
  | succ f ih =>
    intro n c hc
    by_cases hn : n < 10
    · simp only [natDigitsGo, if_pos hn, List.mem_singleton] at hc
      subst hc
      exact digitChar_isDigit hn
    · simp only [natDigitsGo, if_neg hn, List.mem_append, List.mem_singleton] at hc
      rcases hc with h | h
      · exact ih _ _ h
      · subst h
        exact digitChar_isDigit (Nat.mod_lt _ (by omega))

theorem natDigitsGo_len1 {n : Nat} (h : n < 10) : ∀ f, (natDigitsGo f n).length = 1 := by
  intro f
  cases f <;> simp [natDigitsGo, h]

theorem natDigitsGo_len2 {n : Nat} (h1 : 10 ≤ n) (h2 : n ≤ 99) :
    ∀ f, 1 ≤ f → (natDigitsGo f n).length = 2 := by
  intro f hf
  cases f with
  | zero => omega
  | succ f' =>
    simp only [natDigitsGo, if_neg (by omega : ¬ n < 10), List.length_append,
      List.length_singleton]
    rw [natDigitsGo_len1 (by omega : n / 10 < 10)]

theorem natDigitsGo_len3 {n : Nat} (h1 : 100 ≤ n) (h2 : n ≤ 999) :
    ∀ f, 2 ≤ f → (natDigitsGo f n).length = 3 := by
  intro f hf
  cases f with
  | zero => omega
  | succ f' =>
    simp only [natDigitsGo, if_neg (by omega : ¬ n < 10), List.length_append,
      List.length_singleton]
    rw [natDigitsGo_len2 (by omega : 10 ≤ n / 10) (by omega : n / 10 ≤ 99) f' (by omega)]

theorem natDigitsGo_len4 {n : Nat} (h1 : 1000 ≤ n) (h2 : n ≤ 9999) :
    ∀ f, 3 ≤ f → (natDigitsGo f n).length = 4 := by
  intro f hf
  cases f with
  | zero => omega
  | succ f' =>
    simp only [natDigitsGo, if_neg (by omega : ¬ n < 10), List.length_append,
      List.length_singleton]
    rw [natDigitsGo_len3 (by omega : 100 ≤ n / 10) (by omega : n / 10 ≤ 999) f' (by omega)]

theorem formatTimeNumber_len {n : Nat} (h : n ≤ 99) : (formatTimeNumber n).length = 2 := by
  unfold formatTimeNumber
  by_cases h9 : n > 9
  · rw [if_pos h9]
    exact natDigitsGo_len2 (by omega) h n (by omega)
  · rw [if_neg h9, str_length_append]
    have := natDigitsGo_len1 (show n < 10 by omega) n
    simp only [natStr, str_length_data] at this ⊢
    rw [this]
    decide

theorem formatTimeNumber_digits {n : Nat} :
    ∀ c ∈ (formatTimeNumber n).data, c.isDigit = true := by
  intro c hc
  unfold formatTimeNumber at hc
  by_cases h9 : n > 9
  · rw [if_pos h9] at hc
    exact natDigitsGo_all_digits n n c hc
  · rw [if_neg h9, str_data_append] at hc
    rcases List.mem_append.mp hc with h | h
    · simp only [List.mem_singleton, show ("0" : String).data = ['0'] from rfl] at h
      subst h
      decide
    · exact natDigitsGo_all_digits n n c h

/-- C8: under the wall-clock ranges of a JS `Date` (4-digit year, 0-based
month below 12, day ≤ 31, hour ≤ 23, minute and second ≤ 59) the produced
timestamp is exactly 14 characters, all decimal digits (the shape
`YYYYMMDDHHMMSS` matching `^\d{14}$`), with each of the five
two-character components zero-padded individually. -/
theorem c8_getDefaultFiletime_format (d : DateParts)
    (hy1 : 1000 ≤ d.fullYear) (hy2 : d.fullYear ≤ 9999) (hm : d.month0 ≤ 11)
    (hd : d.date ≤ 31) (hh : d.hours ≤ 23) (hmin : d.minutes ≤ 59) (hs : d.seconds ≤ 59) :
    (getDefaultFiletime d).length = 14 ∧
      (getDefaultFiletime d).data.all Char.isDigit = true := by
  constructor
  · unfold getDefaultFiletime
    rw [str_length_append, str_length_append, str_length_append, str_length_append,
      str_length_append]
    have hy : (natStr d.fullYear).length = 4 := by
      simp only [natStr, str_length_data]
      exact natDigitsGo_len4 hy1 hy2 _ (by omega)
    rw [hy, formatTimeNumber_len (by omega), formatTimeNumber_len (by omega),
      formatTimeNumber_len (by omega), formatTimeNumber_len (by omega),
      formatTimeNumber_len (by omega)]
  · rw [List.all_eq_true]
    intro c hc
    unfold getDefaultFiletime at hc
    rw [str_data_append, str_data_append, str_data_append, str_data_append,
      str_data_append] at hc
    simp only [List.mem_append] at hc
    rcases hc with ((((h | h) | h) | h) | h) | h
    · exact natDigitsGo_all_digits _ _ c h
    all_goals exact formatTimeNumber_digits c h

theorem c8_witness :
    (getDefaultFiletime ⟨2024, 0, 5, 3, 7, 9⟩).length = 14 ∧
      (getDefaultFiletime ⟨2024, 0, 5, 3, 7, 9⟩).data.all Char.isDigit = true :=
  c8_getDefaultFiletime_format ⟨2024, 0, 5, 3, 7, 9⟩ (by decide) (by decide) (by decide)
    (by decide) (by decide) (by decide) (by decide)

/-! ## C7 / C10 — handleTextFormat -/

theorem extractRule_shape {p f : List Char}
    (hp : '/' ∉ p) (hf : '/' ∉ f)
    (hpt : ∀ c ∈ p, isTerm c = false) (hft : ∀ c ∈ f, isTerm c = false) :
    extractRule ('/' :: (p ++ '/' :: f)) = p := by
  have hall : ∀ c ∈ p ++ '/' :: f, (fun d => !isTerm d) c = true := by
    intro c hc
    rcases List.mem_append.mp hc with h | h
    · simp [hpt c h]
    · rcases List.mem_cons.mp h with h | h
      · subst h
        decide
      · simp [hft c h]
  simp only [extractRule, if_pos rfl]
  rw [takeWhile_all hall, dropWhile_all hall, beforeLast_append hp hf]
  simp

theorem extractRule_of_not_shape {rule : List Char} (h : ruleShape rule = false) :
    extractRule rule = rule := by
  cases rule with
  | nil => rfl
  | cons c rest =>
    by_cases hc : c = '/'
    · subst hc
      have hmem : '/' ∉ rest.takeWhile (fun d => !isTerm d) := by
        simp only [ruleShape, decide_eq_false_iff_not] at h
        exact h
      simp only [extractRule, if_pos rfl, beforeLast_of_not_mem hmem]
      simp
    · simp only [extractRule, if_neg hc]

/-- C7: when a non-empty rule has the `/pattern/flags` shape (single-line
pattern and flags, no inner `'/'`), `handleTextFormat` compiles exactly
the pattern portion with flags `"gi"` and replaces every match in the text
with a single space; an empty text or an empty rule passes the text
through unchanged. -/
theorem c7_handleTextFormat_spec :
    (∀ (p f text : String) (re : Re),
        '/' ∉ p.data → '/' ∉ f.data →
        (∀ c ∈ p.data, isTerm c = false) → (∀ c ∈ f.data, isTerm c = false) →
        text ≠ "" → parsePattern p.data = some re →
        handleTextFormat text ("/" ++ p ++ "/" ++ f)
          = some (String.mk (replaceAllRe true re [' '] text.data))) ∧
    (∀ rule : String, handleTextFormat "" rule = some "") ∧
    (∀ text : String, handleTextFormat text "" = some text) := by
  refine ⟨?_, ?_, ?_⟩
  · intro p f text re hp hf hpt hft ht hre
    have hdata : ("/" ++ p ++ "/" ++ f).data = '/' :: (p.data ++ '/' :: f.data) := by
      rw [str_data_append, str_data_append, str_data_append]
      simp
    have htd : ¬ text.data = [] := fun hnil => ht (str_data_eq_nil.mp hnil)
    unfold handleTextFormat
    rw [if_neg (by rw [hdata]; simp [htd])]
    rw [hdata, extractRule_shape hp hf hpt hft, hre]
  · intro rule
    unfold handleTextFormat
    rw [if_pos (Or.inl rfl)]
  · intro text
    unfold handleTextFormat
    rw [if_pos (Or.inr rfl)]

theorem c7_witness : handleTextFormat "a   b\tc" "/[ \\t]+/" = some "a b c" := by
  have h := c7_handleTextFormat_spec.1 "[ \\t]+" "" "a   b\tc"
    (Re.seqRe
      (Re.seqRe (Re.cls false [ClsItem.single ' ', ClsItem.single '\t'])
        (Re.starRe (Re.cls false [ClsItem.single ' ', ClsItem.single '\t'])))
      Re.emptyRe)
    (by decide) (by decide) (by decide) (by decide) (by decide) (by decide)
  rw [show ("/" ++ "[ \\t]+" ++ "/" ++ "" : String) = "/[ \\t]+/" from by decide] at h
  exact h.trans (by decide)

/-- C10: a non-empty rule without the `/pattern/flags` shape (no leading
slash closed by a second slash on the same line) is used verbatim as the
pattern, compiled with flags `"gi"`, and every match in the text is
replaced by a single space (for rules the modelled regex subset compiles;
`parsePattern … = none` covers `RegExp` failures). -/
theorem c10_handleTextFormat_verbatim_rule (text rule : String) (re : Re)
    (ht : text ≠ "") (hr : rule ≠ "") (hshape : ruleShape rule.data = false)
    (hre : parsePattern rule.data = some re) :
    handleTextFormat text rule = some (String.mk (replaceAllRe true re [' '] text.data)) := by
  have htd : ¬ text.data = [] := fun hnil => ht (str_data_eq_nil.mp hnil)
  have hrd : ¬ rule.data = [] := fun hnil => hr (str_data_eq_nil.mp hnil)
  unfold handleTextFormat
  rw [if_neg (by simp [htd, hrd])]
  rw [extractRule_of_not_shape hshape, hre]

theorem c10_witness : handleTextFormat "a1b2" "[0-9]" = some "a b " := by
  have h := c10_handleTextFormat_verbatim_rule "a1b2" "[0-9]"
    (Re.seqRe (Re.cls false [ClsItem.range '0' '9']) Re.emptyRe)
    (by decide) (by decide) (by decide) (by decide)
  exact h.trans (by decide)

/-! ## C5 — getSelectedText -/

/-- C5: for every editor behaviour, the extracted text is trimmed and: a
non-empty explicit selection wins under every scope; scope `off` with no
selection yields `""`; scope `before` reads from the document start
`⟨0,0⟩` to the cursor; scope `after` reads from the cursor to the end of
the word at the end of the last line (`wordAt(…).to`), falling back to the
end of the document when `wordAt` returns null; and a missing editor
yields `""`. -/
theorem c5_getSelectedText_spec :
    (∀ (scope : ReadScope) (ed : EditorModel), ed.selection ≠ "" →
        getSelectedText scope (some ed) = jsTrim ed.selection) ∧
    (∀ ed : EditorModel, ed.selection = "" →
        getSelectedText ReadScope.off (some ed) = "") ∧
    (∀ ed : EditorModel, ed.selection = "" →
        getSelectedText ReadScope.before (some ed)
          = jsTrim (ed.getRange ⟨0, 0⟩ ed.cursor)) ∧
    (∀ ed : EditorModel, ed.selection = "" →
        getSelectedText ReadScope.after (some ed) =
          jsTrim (ed.getRange ed.cursor
            (((ed.wordAt ⟨ed.lastLine, (ed.getLine ed.lastLine).length⟩).map
                WordRange.toPos).getD
              ⟨ed.lastLine, (ed.getLine ed.lastLine).length⟩))) ∧
    (∀ scope : ReadScope, getSelectedText scope none = "") := by
  refine ⟨?_, ?_, ?_, ?_, ?_⟩
  · intro scope ed h
    cases scope <;> simp [getSelectedText, h]
  · intro ed h
    simp [getSelectedText, h, jsTrim]
  · intro ed h
    simp [getSelectedText, h]
  · intro ed h
    simp [getSelectedText, h]
  · intro scope
    rfl

def edWitness : EditorModel :=
  { selection := "  hello  ", cursor := ⟨0, 0⟩, lastLine := 0,
    getLine := fun _ => "", wordAt := fun _ => none, getRange := fun _ _ => "" }

theorem c5_witness : getSelectedText ReadScope.off (some edWitness) = "hello" := by
  have h := c5_getSelectedText_spec.1 ReadScope.off edWitness (by decide)
  exact h.trans (by decide)

/-! ## C1-C4 — the generateVoice lifecycle -/

theorem ssmlContent_ne_empty {cfg : Config} (h : textStr cfg ≠ "") :
    ssmlContent cfg ≠ "" := by
  simp only [ssmlContent, if_neg h]
  unfold buildSsml
  apply str_append_ne_empty_right
  decide

/-- C1: for a non-empty text, the promise resolves with `true` exactly when
the completion callback reports `SynthesizingAudioCompleted`; that success
path presents the success notice, whose message contains the target path
`{filePath}/{filename}.{audioFormatType}` when the mode is `save`; any
other completion reason rejects with `false` and presents the generic
localized error notice; the failure callback rejects with `false` and
presents the error detail; a setup exception rejects with `false` and
presents the exception's rendering. -/
theorem c1_generateVoice_outcome (L : Lang → LangTips) (cfg : Config) (env : SdkEnv)
    (s0 : StoreState) (ht : textStr cfg ≠ "") :
    ((generateVoiceRun L cfg env s0).2.2 = PromiseResult.resolved true ↔
        env = SdkEnv.completed ResultReason.synthesizingAudioCompleted) ∧
    (env = SdkEnv.completed ResultReason.synthesizingAudioCompleted →
        Event.notice MessageType.success (successMsg L cfg)
            ∈ (generateVoiceRun L cfg env s0).2.1 ∧
          (cfg.typ = SynthType.save →
            ∃ a b : List Char,
              (successMsg L cfg).data = a ++ (audioFile cfg).data ++ b)) ∧
    (∀ n, env = SdkEnv.completed (ResultReason.otherReason n) →
        (generateVoiceRun L cfg env s0).2.2 = PromiseResult.rejected false ∧
          Event.notice MessageType.error (L cfg.lang).errorSynthesis
            ∈ (generateVoiceRun L cfg env s0).2.1) ∧
    (∀ e, env = SdkEnv.errored e →
        (generateVoiceRun L cfg env s0).2.2 = PromiseResult.rejected false ∧
          Event.notice MessageType.error e ∈ (generateVoiceRun L cfg env s0).2.1) ∧
    (∀ st e, env = SdkEnv.setupThrow st e →
        (generateVoiceRun L cfg env s0).2.2 = PromiseResult.rejected false ∧
          Event.notice MessageType.error e ∈ (generateVoiceRun L cfg env s0).2.1) := by
  have hss := ssmlContent_ne_empty ht
  cases env with
  | setupThrow st e =>
    refine ⟨by simp [generateVoiceRun], by simp, by simp, by simp, ?_⟩
    intro st' e' he
    cases he
    simp [generateVoiceRun]
  | completed reason =>
    cases reason with
    | synthesizingAudioCompleted =>
      refine ⟨by simp [generateVoiceRun, hss], ?_, by simp, by simp, by simp⟩
      intro _
      constructor
      · simp [generateVoiceRun, hss]
      · intro hsave
        refine ⟨((L cfg.lang).successSynthesis ++ ". ").data
            ++ ((L cfg.lang).successSave ++ " ").data, [], ?_⟩
        simp [successMsg, hsave, str_data_append, List.append_assoc]
    | otherReason n =>
      refine ⟨by simp [generateVoiceRun, hss], by simp, ?_, by simp, by simp⟩
      intro n' hn
      cases hn
      simp [generateVoiceRun, hss]
  | errored err =>
    refine ⟨by simp [generateVoiceRun, hss], by simp, by simp, ?_, by simp⟩
    intro e' he
    cases he
    simp [generateVoiceRun, hss]

def tipsEn : LangTips :=
  { successSynthesis := "Synthesis succeeded", successSave := "Saved to",
    errorSynthesis := "Synthesis failed" }

def sampleLANGS : Lang → LangTips := fun _ => tipsEn

def store0 : StoreState :=
  { playing := true, audioConfigSet := true, synthesizer := some 0, nextId := 1 }

def cfgSave : Config :=
  { filename := some "note1", text := some "hello", key := some "k",
    region := some "eastus", filePath := some "/out", voice := some "en-US-JennyNeural",
    typ := SynthType.save, lang := Lang.en, hasCallback := true,
    audioFormat := some "Audio24Khz160KBitRateMonoMp3", audioFormatType := some "mp3",
    speed := "1", regionCode := some "en-US" }

theorem c1_witness :
    (generateVoiceRun sampleLANGS cfgSave
        (SdkEnv.completed ResultReason.synthesizingAudioCompleted) store0).2.2
      = PromiseResult.resolved true ∧
    Event.notice MessageType.success (successMsg sampleLANGS cfgSave)
      ∈ (generateVoiceRun sampleLANGS cfgSave
          (SdkEnv.completed ResultReason.synthesizingAudioCompleted) store0).2.1 ∧
    (∃ a b : List Char,
        (successMsg sampleLANGS cfgSave).data = a ++ (audioFile cfgSave).data ++ b) ∧
    audioFile cfgSave = "/out/note1.mp3" := by
  have h := c1_generateVoice_outcome sampleLANGS cfgSave
    (SdkEnv.completed ResultReason.synthesizingAudioCompleted) store0 (by decide)
  exact ⟨h.1.mpr rfl, (h.2.1 rfl).1, (h.2.1 rfl).2 (by decide), by decide⟩

/-- C2: on every terminal outcome (the promise settled, i.e. not pending —
success completion, non-success completion, failure callback, or setup
exception) the trace ends with the `synthesizerClear` steps: the store's
synthesizer handle is released (`actions.clearsynthesizer`) and then the
caller-supplied no-argument callback is invoked when one was supplied;
the final store holds no synthesizer handle. -/
theorem c2_generateVoice_cleanup (L : Lang → LangTips) (cfg : Config) (env : SdkEnv)
    (s0 : StoreState)
    (h : (generateVoiceRun L cfg env s0).2.2 ≠ PromiseResult.pending) :
    (∃ pre : List Event,
        (generateVoiceRun L cfg env s0).2.1
          = pre ++ Event.clearSynthesizer :: cbEvents cfg) ∧
    (generateVoiceRun L cfg env s0).1.synthesizer = none := by
  cases env with
  | setupThrow st e =>
    refine ⟨⟨[Event.pause, Event.clearAudioConfig] ++ throwEvents cfg st
      ++ [Event.notice MessageType.error e], ?_⟩, ?_⟩
    · simp [generateVoiceRun]
    · simp [generateVoiceRun, clearsynthesizerA]
  | completed reason =>
    by_cases hss : ssmlContent cfg = ""
    · exact absurd (by simp [generateVoiceRun, hss]) h
    · by_cases hr : reason = ResultReason.synthesizingAudioCompleted
      · subst hr
        refine ⟨⟨[Event.pause, Event.clearAudioConfig] ++ setupStoreEvents cfg
          ++ [Event.speakSsml (ssmlContent cfg),
              Event.notice MessageType.success (successMsg L cfg)], ?_⟩, ?_⟩
        · simp [generateVoiceRun, hss]
        · simp [generateVoiceRun, hss, clearsynthesizerA]
      · refine ⟨⟨[Event.pause, Event.clearAudioConfig] ++ setupStoreEvents cfg
          ++ [Event.speakSsml (ssmlContent cfg),
              Event.notice MessageType.error (L cfg.lang).errorSynthesis], ?_⟩, ?_⟩
        · simp [generateVoiceRun, hss, hr]
        · simp [generateVoiceRun, hss, hr, clearsynthesizerA]
  | errored err =>
    by_cases hss : ssmlContent cfg = ""
    · exact absurd (by simp [generateVoiceRun, hss]) h
    · refine ⟨⟨[Event.pause, Event.clearAudioConfig] ++ setupStoreEvents cfg
        ++ [Event.speakSsml (ssmlContent cfg), Event.notice MessageType.error err], ?_⟩, ?_⟩
      · simp [generateVoiceRun, hss]
      · simp [generateVoiceRun, hss, clearsynthesizerA]

theorem c2_witness :
    (∃ pre : List Event,
        (generateVoiceRun sampleLANGS cfgSave (SdkEnv.errored "network failure") store0).2.1
          = pre ++ Event.clearSynthesizer :: cbEvents cfgSave) ∧
    (generateVoiceRun sampleLANGS cfgSave (SdkEnv.errored "network failure") store0).1.synthesizer
      = none :=
  c2_generateVoice_cleanup sampleLANGS cfgSave (SdkEnv.errored "network failure") store0
    (by decide)

/-- C3 counterexample: with an absent text but a setup exception (e.g. the
SDK constructor throwing on bad credentials) the promise *does* settle: it
is rejected with `false`, contradicting the claim that every empty-text
invocation neither resolves nor rejects. -/
def cfgNoText : Config := { cfgSave with text := none }

theorem c3_counterexample :
    textStr cfgNoText = "" ∧
    (generateVoiceRun sampleLANGS cfgNoText (SdkEnv.setupThrow 0 "Error: bad key") store0).2.2
      = PromiseResult.rejected false := by decide

/-- C3 amended: when the text is empty or absent, `speakSsmlAsync` is never
invoked (no synthesis event in any environment), and *provided setup does
not throw* the promise neither resolves nor rejects; a setup exception
still rejects with `false` (with no synthesis call either). -/
theorem c3_amended_empty_text (L : Lang → LangTips) (cfg : Config) (env : SdkEnv)
    (s0 : StoreState) (h : textStr cfg = "") :
    (∀ s : String, Event.speakSsml s ∉ (generateVoiceRun L cfg env s0).2.1) ∧
    (∀ r, env = SdkEnv.completed r →
        (generateVoiceRun L cfg env s0).2.2 = PromiseResult.pending) ∧
    (∀ e, env = SdkEnv.errored e →
        (generateVoiceRun L cfg env s0).2.2 = PromiseResult.pending) ∧
    (∀ st e, env = SdkEnv.setupThrow st e →
        (generateVoiceRun L cfg env s0).2.2 = PromiseResult.rejected false) := by
  have hss : ssmlContent cfg = "" := by simp [ssmlContent, h]
  cases env with
  | setupThrow st e =>
    refine ⟨?_, by simp, by simp, by intro st' e' he; cases he; simp [generateVoiceRun]⟩
    intro s
    simp [generateVoiceRun, throwEvents, setupStoreEvents, cbEvents]
    split <;> simp_all
  | completed reason =>
    refine ⟨?_, by intro r hr; cases hr; simp [generateVoiceRun, hss], by simp, by simp⟩
    intro s
    simp [generateVoiceRun, hss, setupStoreEvents]
  | errored err =>
    refine ⟨?_, by simp, by intro e' he; cases he; simp [generateVoiceRun, hss], by simp⟩
    intro s
    simp [generateVoiceRun, hss, setupStoreEvents]

theorem c3_witness :
    (generateVoiceRun sampleLANGS cfgNoText
        (SdkEnv.completed ResultReason.synthesizingAudioCompleted) store0).2.2
      = PromiseResult.pending :=
  (c3_amended_empty_text sampleLANGS cfgNoText
      (SdkEnv.completed ResultReason.synthesizingAudioCompleted) store0 (by decide)).2.1
    ResultReason.synthesizingAudioCompleted rfl

theorem index_ge_two {α : Type} {c a b : α} {t : List α} (h1 : c ≠ a) (h2 : c ≠ b) :
    ∀ i : Nat, (a :: b :: t)[i]? = some c → 2 ≤ i := by
  intro i h
  match i with
  | 0 =>
    simp only [List.getElem?_cons_zero, Option.some.injEq] at h
    exact absurd h.symm h1
  | 1 =>
    simp only [List.getElem?_cons_succ, List.getElem?_cons_zero, Option.some.injEq] at h
    exact absurd h.symm h2
  | n + 2 => omega

/-- C4: for any two sequential invocations, the second begins by stopping
playback and clearing the shared audio-config state (`actions.pause()`
then `actions.clearAudioConfig()` are its first two events), any
registration of its own synthesizer happens strictly after those two
teardown events, and the store right after that prologue holds no
synthesizer handle, no playing audio and no cached audio config —
whatever the first invocation left behind (single-flight,
last-request-wins). -/
theorem c4_single_flight (L1 L2 : Lang → LangTips) (cfg1 cfg2 : Config)
    (env1 env2 : SdkEnv) (s0 : StoreState) :
    ((generateVoiceRun L2 cfg2 env2 (generateVoiceRun L1 cfg1 env1 s0).1).2.1).take 2
        = [Event.pause, Event.clearAudioConfig] ∧
    (∀ i : Nat,
        ((generateVoiceRun L2 cfg2 env2 (generateVoiceRun L1 cfg1 env1 s0).1).2.1)[i]?
            = some Event.setSpeechSynthesizer → 2 ≤ i) ∧
    (clearAudioConfigA (pauseA (generateVoiceRun L1 cfg1 env1 s0).1)).synthesizer = none ∧
    (clearAudioConfigA (pauseA (generateVoiceRun L1 cfg1 env1 s0).1)).playing = false ∧
    (clearAudioConfigA (pauseA (generateVoiceRun L1 cfg1 env1 s0).1)).audioConfigSet
        = false := by
  refine ⟨?_, ?_, by simp [clearAudioConfigA, pauseA], by simp [clearAudioConfigA, pauseA],
    by simp [clearAudioConfigA, pauseA]⟩
  · cases env2 with
    | setupThrow st e => simp [generateVoiceRun]
    | completed reason =>
      by_cases hss : ssmlContent cfg2 = "" <;>
        by_cases hr : reason = ResultReason.synthesizingAudioCompleted <;>
          simp [generateVoiceRun, hss, hr]
    | errored err =>
      by_cases hss : ssmlContent cfg2 = "" <;> simp [generateVoiceRun, hss]
  · cases env2 with
    | setupThrow st e =>
      intro i hi
      simp only [generateVoiceRun, List.cons_append, List.nil_append] at hi
      exact index_ge_two (by decide) (by decide) i hi
    | completed reason =>
      intro i hi
      by_cases hss : ssmlContent cfg2 = "" <;>
        by_cases hr : reason = ResultReason.synthesizingAudioCompleted <;>
          [skip; skip; skip; skip] <;>
        · simp only [generateVoiceRun, hss, hr, if_pos, if_neg, ite_true, ite_false,
            List.cons_append, List.nil_append] at hi
          exact index_ge_two (by decide) (by decide) i hi
    | errored err =>
      intro i hi
      by_cases hss : ssmlContent cfg2 = "" <;>
        · simp only [generateVoiceRun, hss, List.cons_append, List.nil_append,
            ite_true, ite_false] at hi
          exact index_ge_two (by decide) (by decide) i hi

theorem c4_witness :
    2 ≤ 2 ∧
    ((generateVoiceRun sampleLANGS cfgSave
        (SdkEnv.completed ResultReason.synthesizingAudioCompleted)
        (generateVoiceRun sampleLANGS cfgSave (SdkEnv.errored "e1") store0).1).2.1).take 2
      = [Event.pause, Event.clearAudioConfig] := by
  have h := c4_single_flight sampleLANGS sampleLANGS cfgSave cfgSave
    (SdkEnv.errored "e1") (SdkEnv.completed ResultReason.synthesizingAudioCompleted) store0
  exact ⟨h.2.1 2 (by decide), h.1⟩

end Text2Audio
